import Mathlib

/-!
# Verification of the profile-recorder core

A shallow embedding of `internal/pkg/daemon/profilerecorder/profilerecorder.go`
(the recorder / SELinux policy builder component of the security-profiles
operator), together with theorems settling the specification claims about it.

Go strings are modelled by Lean `String`; byte-indexed operations on the
ASCII separators used by the source (`-`, `:`, `"` `"`, `/`) coincide with
character-indexed ones on valid UTF-8, which Lean strings guarantee.
Go errors (`errors.New`, `errors.Wrap`, `errors.Errorf`, `errors.Wrapf`) are
modelled by the inductive `Err` below: `Wrap`/`Wrapf` build a wrapper node
around the cause, `New`/`Errorf` build a leaf carrying the message.
-/

namespace ProfileRecorder

/-- Model of Go error values as produced by `github.com/pkg/errors`:
`new` is `errors.New`/`errors.Errorf`, `wrap` is `errors.Wrap`/`errors.Wrapf`
(message plus wrapped cause). -/
inductive Err where
  | new (msg : String)
  | wrap (msg : String) (cause : Err)
deriving DecidableEq, Repr

/-- Go `strings.Split(s, sep)` for a one-character separator, on the
character list of the string.  `strings.Split("", ":") = [""]`,
`strings.Split(":", ":") = ["", ""]`, etc. -/
def splitOnChar (sep : Char) : List Char → List (List Char)
  | [] => [[]]
  | c :: rest =>
    let r := splitOnChar sep rest
    if c = sep then [] :: r
    else
      match r with
      | h :: t => (c :: h) :: t
      | [] => [[c]]

theorem splitOnChar_ne_nil (sep : Char) (l : List Char) : splitOnChar sep l ≠ [] := by
  cases l with
  | nil => simp [splitOnChar]
  | cons c rest =>
    simp only [splitOnChar]
    split
    · simp
    · split <;> simp_all

/-- The number of fields `strings.Split` produces is one more than the
number of separator occurrences. -/
theorem splitOnChar_length (sep : Char) (l : List Char) :
    (splitOnChar sep l).length = l.count sep + 1 := by
  induction l with
  | nil => simp [splitOnChar]
  | cons c rest ih =>
    simp only [splitOnChar]
    by_cases hc : c = sep
    · subst hc
      simp [List.count_cons, ih]
    · rw [if_neg hc]
      have hne := splitOnChar_ne_nil sep rest
      cases h : splitOnChar sep rest with
      | nil => exact absurd h hne
      | cons a t =>
        simp only [List.length_cons]
        have := ih
        rw [h] at this
        simp only [List.length_cons] at this
        simp [List.count_cons, hc, ← this]

/-- Core of `extractProfileName`: the characters strictly before the last
`-`, or `none` when no `-` occurs. -/
def extractNameCore : List Char → Option (List Char)
  | [] => none
  | c :: rest =>
    match extractNameCore rest with
    | some pre => some (c :: pre)
    | none => if c = '-' then some [] else none

/-- Model of `extractProfileName` from profilerecorder.go: everything before the
byte index `strings.LastIndex(s, "-")`, failing when there is no `-`. -/
def extractProfileName (s : String) : Except Err String :=
  match extractNameCore s.data with
  | none => .error (.new ("malformed profile path: " ++ s))
  | some pre => .ok ⟨pre⟩

theorem extractNameCore_eq_none_iff (l : List Char) :
    extractNameCore l = none ↔ '-' ∉ l := by
  induction l with
  | nil => simp [extractNameCore]
  | cons c rest ih =>
    simp only [extractNameCore, List.mem_cons]
    cases h : extractNameCore rest with
    | some pre =>
      have hr : '-' ∈ rest := by
        by_contra hno
        rw [← ih] at hno
        simp [h] at hno
      simp [hr]
    | none =>
      have hr : '-' ∉ rest := ih.mp h
      by_cases hc : c = '-'
      · simp [hc]
      · have : ¬ ('-' = c) := fun he => hc he.symm
        simp [hc, hr, this]

/-- Full characterization of `extractNameCore`: it returns exactly the
characters before the last `-`, i.e. `p` such that the input is
`p ++ '-' :: u` with no `-` in `u`. -/
theorem extractNameCore_eq_some_iff (l p : List Char) :
    extractNameCore l = some p ↔ ∃ u, l = p ++ '-' :: u ∧ '-' ∉ u := by
  induction l generalizing p with
  | nil =>
    simp only [extractNameCore, reduceCtorEq, false_iff, not_exists]
    intro u hu
    exact absurd hu.1 (by simp)
  | cons c rest ih =>
    simp only [extractNameCore]
    cases h : extractNameCore rest with
    | some pre =>
      constructor
      · intro hp
        injection hp with hp
        subst hp
        obtain ⟨u, hu, hnu⟩ := (ih pre).mp h
        exact ⟨u, by rw [hu]; rfl, hnu⟩
      · rintro ⟨u, hu, hnu⟩
        cases p with
        | nil =>
          simp only [List.nil_append, List.cons.injEq] at hu
          obtain ⟨hc, hrest⟩ := hu
          have hnone : extractNameCore rest = none :=
            (extractNameCore_eq_none_iff rest).mpr (hrest ▸ hnu)
          rw [h] at hnone
          cases hnone
        | cons p0 ps =>
          simp only [List.cons_append, List.cons.injEq] at hu
          obtain ⟨hc, hrest⟩ := hu
          have hps := (ih ps).mpr ⟨u, hrest, hnu⟩
          rw [h] at hps
          injection hps with hpre
          rw [hc, hpre]
    | none =>
      have hr : '-' ∉ rest := (extractNameCore_eq_none_iff rest).mp h
      by_cases hc : c = '-'
      · subst hc
        simp only [if_pos rfl]
        constructor
        · intro hp
          injection hp with hp
          subst hp
          exact ⟨rest, rfl, hr⟩
        · rintro ⟨u, hu, hnu⟩
          cases p with
          | nil => rfl
          | cons p0 ps =>
            simp only [List.cons_append, List.cons.injEq] at hu
            obtain ⟨hc0, hrest⟩ := hu
            exact absurd (by rw [hrest]; simp : '-' ∈ rest) hr
      · simp only [if_neg hc]
        constructor
        · intro hfalse
          cases hfalse
        · rintro ⟨u, hu, hnu⟩
          cases p with
          | nil =>
            simp only [List.nil_append, List.cons.injEq] at hu
            exact absurd hu.1 hc
          | cons p0 ps =>
            simp only [List.cons_append, List.cons.injEq] at hu
            exact absurd (by rw [hu.2]; simp : '-' ∈ rest) hr

/-- Modelled from the spec: `config.SelinuxPermissiveProfile`, the sentinel
"permissive profile" value from the operator's config package, which is not
among the provided sources.  The spec describes it only as "the sentinel
'permissive profile' value", the SELinux type label under which recorded
workloads run; we fix a concrete type label for it. -/
def SelinuxPermissiveProfile : String := "selinuxrecording.process"

/-- Model of `ctxt2type` from profilerecorder.go: the third `:`-separated field of an
SELinux context, failing when the context has fewer than
`seContextRequiredParts = 3` fields. -/
def ctxt2type (ctx : String) : Except Err String :=
  let elems := splitOnChar ':' ctx.data
  if elems.length < 3 then .error (.new "Malformed SELinux context")
  else .ok ⟨elems.getD 2 []⟩

/-- One record of `enricherapi.AvcResponse_SelinuxAvc`. -/
structure SelinuxAvc where
  perm : String
  scontext : String
  tcontext : String
  tclass : String
deriving DecidableEq, Repr

/-- Model of `k8s.io/apimachinery/pkg/util/sets.String`: a string set.  The
representation is the insertion-ordered list of distinct elements; the only
observations the source makes of a set are `Insert`, `Len` and the sorted
`List()`, all insensitive to the representation order. -/
abbrev StringSet := List String

/-- Model of `sets.String.Insert`. -/
def StringSet.insertStr (s : StringSet) (x : String) : StringSet :=
  if x ∈ s then s else s ++ [x]

/-- Model of `sets.NewString(x)`. -/
def StringSet.single (x : String) : StringSet := [x]

/-- Computable lexicographic comparison of character lists by code point.
Go compares strings byte-lexicographically on UTF-8, which coincides with
code-point order. -/
def listCharLe : List Char → List Char → Bool
  | [], _ => true
  | _ :: _, [] => false
  | a :: as, b :: bs =>
    if a.toNat < b.toNat then true
    else if b.toNat < a.toNat then false
    else listCharLe as bs

theorem charEq_of_toNat_eq {a b : Char} (h : a.toNat = b.toNat) : a = b := by
  apply Char.ext
  apply UInt32.ext
  simpa [Char.toNat, UInt32.toNat] using h

theorem listCharLe_iff_not_lex (l₁ l₂ : List Char) :
    listCharLe l₁ l₂ = true ↔ ¬ List.Lex (· < ·) l₂ l₁ := by
  induction l₁ generalizing l₂ with
  | nil =>
    simp only [listCharLe, true_iff]
    intro h
    cases h
  | cons a as ih =>
    cases l₂ with
    | nil =>
      simp only [listCharLe, reduceCtorEq, false_iff, not_not]
      exact List.Lex.nil
    | cons b bs =>
      simp only [listCharLe]
      by_cases hab : a.toNat < b.toNat
      · rw [if_pos hab]
        simp only [true_iff]
        intro h
        cases h with
        | cons h' => exact absurd hab (by simp)
        | rel h' =>
          have : b.toNat < a.toNat := h'
          omega
      · rw [if_neg hab]
        by_cases hba : b.toNat < a.toNat
        · rw [if_pos hba]
          simp only [reduceCtorEq, false_iff, not_not]
          exact List.Lex.rel hba
        · rw [if_neg hba]
          have heq : a = b := charEq_of_toNat_eq (by omega)
          subst heq
          rw [ih bs]
          constructor
          · intro h hlex
            cases hlex with
            | cons h' => exact h h'
            | rel h2 => exact absurd h2 (lt_irrefl a)
          · intro h hlex
            exact h (List.Lex.cons hlex)

/-- Computable string comparison, agreeing with the lexicographic order. -/
def strLe (a b : String) : Bool := listCharLe a.data b.data

theorem strLe_iff (a b : String) : strLe a b = true ↔ a ≤ b := by
  rw [String.le_iff_toList_le, ← not_lt]
  show listCharLe a.data b.data = true ↔ ¬ List.Lex (· < ·) b.data a.data
  exact listCharLe_iff_not_lex a.data b.data

/-- The sorting relation used to model Go's `sort.Strings`. -/
def strLeRel : String → String → Prop := fun a b => strLe a b = true

instance : DecidableRel strLeRel := fun a b =>
  inferInstanceAs (Decidable (strLe a b = true))

instance : IsTotal String strLeRel :=
  ⟨fun a b => by
    unfold strLeRel
    rw [strLe_iff, strLe_iff]
    exact le_total a b⟩

instance : IsTrans String strLeRel :=
  ⟨fun a b c hab hbc => by
    unfold strLeRel at *
    rw [strLe_iff] at *
    exact le_trans hab hbc⟩

instance : IsAntisymm String strLeRel :=
  ⟨fun a b hab hba => by
    unfold strLeRel at *
    rw [strLe_iff] at *
    exact le_antisymm hab hba⟩

/-- Go `sort.Strings` (and `sets.String.List()`, which also returns the
elements in ascending order): the ascending lexicographic reordering. -/
def sortStrings (l : List String) : List String :=
  l.insertionSort strLeRel

/-- Lookup in an association-list model of a Go `map[string]V` /
`sync.Map`. -/
def mapGet {β : Type} : List (String × β) → String → Option β
  | [], _ => none
  | (k, v) :: rest, key => if k = key then some v else mapGet rest key

/-- Insert-or-replace in the association-list map model (Go map assignment /
`sync.Map.Store`). -/
def mapSet {β : Type} : List (String × β) → String → β → List (String × β)
  | [], key, v => [(key, v)]
  | (k, w) :: rest, key, v =>
    if k = key then (k, v) :: rest else (k, w) :: mapSet rest key v

/-- Deletion in the association-list map model (`sync.Map.Delete`). -/
def mapDel {β : Type} : List (String × β) → String → List (String × β)
  | [], _ => []
  | (k, w) :: rest, key =>
    if k = key then mapDel rest key else (k, w) :: mapDel rest key

/-- The state of `seProfileBuilder`: the permission map keyed by
`"<tclass> <ctxType>"`, the list of keys in insertion order (note: the
source appends to `keys` on every `addAvc`, including repeated keys), and
the usage context. -/
structure SeProfileBuilder where
  permMap : List (String × StringSet)
  keys : List String
  usageCtx : String
deriving DecidableEq, Repr

/-- Model of `newSeProfileBuilder` (the `log` field carries no behavior). -/
def newSeProfileBuilder (usageCtx : String) : SeProfileBuilder :=
  { permMap := [], keys := [], usageCtx := usageCtx }

/-- Model of `seProfileBuilder.addAvc`. -/
def addAvc (sb : SeProfileBuilder) (avc : SelinuxAvc) : Except Err SeProfileBuilder :=
  match ctxt2type avc.tcontext with
  | .error e => .error (.wrap "converting context to type" e)
  | .ok ctxType =>
    let key := avc.tclass ++ " " ++ ctxType
    let keys := sb.keys ++ [key]
    match mapGet sb.permMap key with
    | some perms =>
      .ok { sb with keys := keys,
                    permMap := mapSet sb.permMap key (perms.insertStr avc.perm) }
    | none =>
      .ok { sb with keys := keys,
                    permMap := mapSet sb.permMap key (StringSet.single avc.perm) }

/-- Model of `seProfileBuilder.AddAvcList`: adds each AVC in order, wrapping the
first failure with "adding AVC". -/
def AddAvcList (sb : SeProfileBuilder) : List SelinuxAvc → Except Err SeProfileBuilder
  | [] => .ok sb
  | avc :: rest =>
    match addAvc sb avc with
    | .error e => .error (.wrap "adding AVC" e)
    | .ok sb2 => AddAvcList sb2 rest

/-- Model of `seProfileBuilder.policyLine`: fails on a nil/empty permission set,
otherwise renders the sorted, space-joined permissions.  (The source sorts
`perms.List()` a second time with `sort.Strings`; sorting an already sorted
list is the identity, so a single sort is the same function.) -/
def policyLine (tclass tcontext : String) (perms : StringSet) : Except Err String :=
  if perms.isEmpty then .error (.new "nil permissions set or no permissions")
  else
    .ok ("(allow process " ++ tcontext ++ " ( " ++ tclass ++ " ( " ++
      String.intercalate " " (sortStrings perms) ++ " )))\n")

/-- Model of `seProfileBuilder.targetClassCtx`: splits the key on `" "` into target
class and context type, substituting the usage context for the permissive
sentinel.  (The source indexes `splitkey[0]` and `splitkey[1]` directly;
every key built by `addAvc` contains the separating space, so both indices
are in bounds there.) -/
def targetClassCtx (usageCtx key : String) : String × String :=
  let splitkey := splitOnChar ' ' key.data
  let tclass : String := ⟨splitkey.getD 0 []⟩
  let tcontext0 : String := ⟨splitkey.getD 1 []⟩
  let tcontext := if tcontext0 = SelinuxPermissiveProfile then usageCtx else tcontext0
  (tclass, tcontext)

/-- Model of `seProfileBuilder.writeLineFromKeyVal`, returning the line it would
append to the policy builder. -/
def writeLineFromKeyVal (usageCtx key : String) (val : StringSet) : Except Err String :=
  if (targetClassCtx usageCtx key).1 = "" ∨ (targetClassCtx usageCtx key).2 = "" then
    .error (.new "empty context or class")
  else
    match policyLine (targetClassCtx usageCtx key).1 (targetClassCtx usageCtx key).2 val with
    | .error e => .error (.wrap "writing policy line" e)
    | .ok line => .ok line

/-- The loop of `seProfileBuilder.Format` over the sorted keys: concatenates
the policy lines, wrapping a failure with the loop's message.  A key absent
from the map yields Go's nil set, modelled as the empty list. -/
def formatKeys (usageCtx : String) (permMap : List (String × StringSet)) :
    List String → Except Err String
  | [] => .ok ""
  | key :: rest =>
    match writeLineFromKeyVal usageCtx key ((mapGet permMap key).getD []) with
    | .error e => .error (.wrap "writing policy line from key-value pair" e)
    | .ok line =>
      match formatKeys usageCtx permMap rest with
      | .error e => .error e
      | .ok s => .ok (line ++ s)

/-- Model of `seProfileBuilder.Format`: the header line followed by one policy line
per entry of the sorted `keys` list. -/
def Format (sb : SeProfileBuilder) : Except Err String :=
  match formatKeys sb.usageCtx sb.permMap (sortStrings sb.keys) with
  | .error e => .error e
  | .ok body => .ok ("(blockinherit container)\n" ++ body)

/-- Model of `RecorderReconciler.formatSelinuxProfile`: run the policy builder over
the AVC list and format, with the source's error wrapping. -/
def formatSelinuxProfile (usageCtx : String) (avcs : List SelinuxAvc) : Except Err String :=
  match AddAvcList (newSeProfileBuilder usageCtx) avcs with
  | .error e => .error (.wrap "consuming AVCs" e)
  | .ok sb =>
    match Format sb with
    | .error e => .error (.wrap "building policy" e)
    | .ok s => .ok s

/-! ## Claim C5 and C9: `extractProfileName` -/

theorem data_append_dash (t u : String) :
    (t ++ "-" ++ u).data = t.data ++ '-' :: u.data := by
  rw [String.data_append, String.data_append]
  simp

/-- C5: for every string `s`, if `s` contains no `-` then
`extractProfileName s` fails; otherwise it returns exactly the prefix of `s`
up to (and excluding) the last `-` — characterized by: the result is `t` iff
`s` decomposes as `t ++ "-" ++ u` with no `-` in `u`. -/
theorem claim_C5 (s : String) :
    (('-' ∉ s.data) →
      extractProfileName s = .error (.new ("malformed profile path: " ++ s))) ∧
    (∀ t : String, extractProfileName s = .ok t ↔
      ∃ u : String, s = t ++ "-" ++ u ∧ '-' ∉ u.data) ∧
    ('-' ∈ s.data → ∃ t, extractProfileName s = .ok t) := by
  refine ⟨?_, ?_, ?_⟩
  · intro hno
    unfold extractProfileName
    rw [(extractNameCore_eq_none_iff s.data).mpr hno]
  · intro t
    cases h : extractNameCore s.data with
    | none =>
      have hval : extractProfileName s = .error (.new ("malformed profile path: " ++ s)) := by
        simp only [extractProfileName, h]
      rw [hval]
      simp only [reduceCtorEq, false_iff, not_exists]
      rintro u ⟨hu, hnu⟩
      have hd : s.data = t.data ++ '-' :: u.data := by
        rw [hu]
        exact data_append_dash t u
      have hsome : extractNameCore s.data = some t.data :=
        (extractNameCore_eq_some_iff s.data t.data).mpr ⟨u.data, hd, hnu⟩
      rw [h] at hsome
      cases hsome
    | some pre =>
      have hval : extractProfileName s = .ok ⟨pre⟩ := by
        simp only [extractProfileName, h]
      rw [hval]
      obtain ⟨ud, hud, hnud⟩ := (extractNameCore_eq_some_iff s.data pre).mp h
      constructor
      · intro hok
        injection hok with hok
        refine ⟨⟨ud⟩, ?_, hnud⟩
        have hdata : s.data = (t ++ "-" ++ ⟨ud⟩).data := by
          rw [data_append_dash, ← hok]
          exact hud
        cases s
        exact congrArg String.mk hdata
      · rintro ⟨u, hu, hnu⟩
        have hd : s.data = t.data ++ '-' :: u.data := by
          rw [hu]
          exact data_append_dash t u
        have hsome : extractNameCore s.data = some t.data :=
          (extractNameCore_eq_some_iff s.data t.data).mpr ⟨u.data, hd, hnu⟩
        rw [h] at hsome
        injection hsome with hpre
        rw [hpre]
  · intro hmem
    unfold extractProfileName
    cases h : extractNameCore s.data with
    | none =>
      rw [extractNameCore_eq_none_iff s.data] at h
      exact absurd hmem h
    | some pre => exact ⟨⟨pre⟩, rfl⟩

theorem claim_C5_witness :
    extractProfileName "abc-123" = .ok "abc" :=
  ((claim_C5 "abc-123").2.1 "abc").mpr ⟨"123", rfl, by decide⟩

/-- C9: `extractProfileName` can succeed with an empty result: whenever the
only (i.e. the last) `-` of the input is its first character, the result is
the empty string, with no error. -/
theorem claim_C9 (s : String) (rest : List Char)
    (h1 : s.data = '-' :: rest) (h2 : '-' ∉ rest) :
    extractProfileName s = .ok "" := by
  unfold extractProfileName
  have : extractNameCore s.data = some [] :=
    (extractNameCore_eq_some_iff s.data []).mpr ⟨rest, by simpa using h1, h2⟩
  rw [this]

theorem claim_C9_witness :
    extractProfileName "-1600000000" = .ok "" :=
  claim_C9 "-1600000000" "1600000000".data rfl (by decide)

/-! ## Claim C6: `ctxt2type` and malformed contexts -/

/-- C6: adding an AVC whose target context has fewer than three
`:`-separated parts (equivalently, fewer than two `:` occurrences) fails
with the malformed-context error; with three or more parts, the derived
`ctxType` is exactly the third `:`-separated field and `addAvc` succeeds. -/
theorem claim_C6 (avc : SelinuxAvc) (sb : SeProfileBuilder) :
    ((splitOnChar ':' avc.tcontext.data).length = avc.tcontext.data.count ':' + 1) ∧
    ((splitOnChar ':' avc.tcontext.data).length < 3 →
      ctxt2type avc.tcontext = .error (.new "Malformed SELinux context") ∧
      addAvc sb avc = .error (.wrap "converting context to type"
        (.new "Malformed SELinux context"))) ∧
    (3 ≤ (splitOnChar ':' avc.tcontext.data).length →
      ctxt2type avc.tcontext = .ok ⟨(splitOnChar ':' avc.tcontext.data).getD 2 []⟩ ∧
      ∃ sb2, addAvc sb avc = .ok sb2) := by
  refine ⟨splitOnChar_length ':' avc.tcontext.data, ?_, ?_⟩
  · intro hlt
    have hctx : ctxt2type avc.tcontext = .error (.new "Malformed SELinux context") := by
      unfold ctxt2type
      rw [if_pos hlt]
    refine ⟨hctx, ?_⟩
    unfold addAvc
    rw [hctx]
  · intro hge
    have hctx : ctxt2type avc.tcontext =
        .ok ⟨(splitOnChar ':' avc.tcontext.data).getD 2 []⟩ := by
      unfold ctxt2type
      rw [if_neg (by omega)]
    refine ⟨hctx, ?_⟩
    simp only [addAvc, hctx]
    cases hm : mapGet sb.permMap
        (avc.tclass ++ " " ++ (⟨(splitOnChar ':' avc.tcontext.data).getD 2 []⟩ : String)) with
    | none => exact ⟨_, rfl⟩
    | some perms => exact ⟨_, rfl⟩

theorem claim_C6_witness :
    ctxt2type "system_u:object_r" = .error (.new "Malformed SELinux context") ∧
    ctxt2type "system_u:object_r:bin_t:s0" = .ok "bin_t" := by
  constructor
  · exact (((claim_C6 ⟨"read", "s", "system_u:object_r", "file"⟩
      (newSeProfileBuilder "u")).2.1) (by decide)).1
  · exact (((claim_C6 ⟨"read", "s", "system_u:object_r:bin_t:s0", "file"⟩
      (newSeProfileBuilder "u")).2.2) (by decide)).1

/-! ## Claim C8: `policyLine` -/

/-- C8: a nil or empty permission set makes `policyLine` fail (nil and empty
Go sets are both the empty set of permissions, modelled as `[]`); a
non-empty permission set yields the line with the permissions sorted
ascending and space-joined. -/
theorem claim_C8 (tclass tcontext : String) (perms : StringSet) :
    (perms = [] →
      policyLine tclass tcontext perms =
        .error (.new "nil permissions set or no permissions")) ∧
    (perms ≠ [] → ∃ l : List String, List.Sorted (· ≤ ·) l ∧ List.Perm l perms ∧
      policyLine tclass tcontext perms =
        .ok ("(allow process " ++ tcontext ++ " ( " ++ tclass ++ " ( " ++
          String.intercalate " " l ++ " )))\n")) := by
  constructor
  · intro h
    subst h
    rfl
  · intro h
    refine ⟨sortStrings perms, ?_, List.perm_insertionSort _ _, ?_⟩
    · exact (List.sorted_insertionSort strLeRel perms).imp fun hab => (strLe_iff _ _).mp hab
    · unfold policyLine
      rw [if_neg (by simpa [List.isEmpty_iff] using h)]

theorem claim_C8_witness :
    ∃ l : List String, List.Sorted (· ≤ ·) l ∧ List.Perm l ["read", "execute"] ∧
      policyLine "file" "bin_t" ["read", "execute"] =
        .ok ("(allow process " ++ "bin_t" ++ " ( " ++ "file" ++ " ( " ++
          String.intercalate " " l ++ " )))\n") :=
  (claim_C8 "file" "bin_t" ["read", "execute"]).2 (by decide)

instance {ε α : Type} [DecidableEq ε] [DecidableEq α] : DecidableEq (Except ε α) := fun x y =>
  match x, y with
  | .error e1, .error e2 =>
    match decEq e1 e2 with
    | isTrue h => isTrue (by rw [h])
    | isFalse h => isFalse (by intro hh; injection hh; contradiction)
  | .error _, .ok _ => isFalse (by intro h; cases h)
  | .ok _, .error _ => isFalse (by intro h; cases h)
  | .ok a1, .ok a2 =>
    match decEq a1 a2 with
    | isTrue h => isTrue (by rw [h])
    | isFalse h => isFalse (by intro hh; injection hh; contradiction)

/-! ## Claim C1: the formatted policy for the three-AVC scenario -/

/-- The two AVCs sharing target class `file` and target context
`system_u:object_r:bin_t:s0`, with permissions `read` and `execute`. -/
def c1AvcRead : SelinuxAvc :=
  { perm := "read", scontext := "system_u:system_r:container_t:s0",
    tcontext := "system_u:object_r:bin_t:s0", tclass := "file" }

def c1AvcExecute : SelinuxAvc :=
  { perm := "execute", scontext := "system_u:system_r:container_t:s0",
    tcontext := "system_u:object_r:bin_t:s0", tclass := "file" }

/-- The AVC whose target context carries the permissive-profile sentinel as
its type field, with permission `write`. -/
def c1AvcWrite : SelinuxAvc :=
  { perm := "write", scontext := "system_u:system_r:container_t:s0",
    tcontext := "system_u:object_r:" ++ SelinuxPermissiveProfile ++ ":s0",
    tclass := "file" }

def c1Avcs : List SelinuxAvc := [c1AvcRead, c1AvcExecute, c1AvcWrite]

/-- C1 counterexample: the formatted policy is NOT the header followed by
exactly the two claimed lines — because `addAvc` appends the key
`"file bin_t"` to `keys` once per AVC, `Format` emits the `bin_t` line
twice. -/
theorem claim_C1_counterexample :
    formatSelinuxProfile "my_usage_t" c1Avcs ≠
      .ok ("(blockinherit container)\n" ++
        "(allow process bin_t ( file ( execute read )))\n" ++
        "(allow process my_usage_t ( file ( write )))\n") := by
  decide

/-- C1 amended: the formatted policy is the header line followed by the
`bin_t` line twice (once per AVC occurrence of the key `"file bin_t"`) and
then the substituted `my_usage_t` line, in ascending key order. -/
theorem claim_C1 :
    formatSelinuxProfile "my_usage_t" c1Avcs =
      .ok ("(blockinherit container)\n" ++
        "(allow process bin_t ( file ( execute read )))\n" ++
        "(allow process bin_t ( file ( execute read )))\n" ++
        "(allow process my_usage_t ( file ( write )))\n") := by
  decide

/-! ## Claim C2: the Policy Builder is a function of the AVC multiset -/

/-- The key an AVC contributes (meaningful when its target context is
well-formed). -/
def avcKey (a : SelinuxAvc) : String :=
  a.tclass ++ " " ++ ⟨(splitOnChar ':' a.tcontext.data).getD 2 []⟩

/-- An AVC whose target context has fewer than three `:`-separated parts. -/
def avcBad (a : SelinuxAvc) : Prop :=
  (splitOnChar ':' a.tcontext.data).length < 3

instance (a : SelinuxAvc) : Decidable (avcBad a) :=
  inferInstanceAs (Decidable (_ < _))

/-- The total success-path step of `addAvc`. -/
def addAvcOk (sb : SeProfileBuilder) (a : SelinuxAvc) : SeProfileBuilder :=
  { sb with
    keys := sb.keys ++ [avcKey a],
    permMap :=
      match mapGet sb.permMap (avcKey a) with
      | some perms => mapSet sb.permMap (avcKey a) (perms.insertStr a.perm)
      | none => mapSet sb.permMap (avcKey a) (StringSet.single a.perm) }

def foldAdd (sb : SeProfileBuilder) (l : List SelinuxAvc) : SeProfileBuilder :=
  l.foldl addAvcOk sb

/-- The permission set the builder holds for a key (Go reads of a missing
map key yield the nil set). -/
def permsAt (sb : SeProfileBuilder) (key : String) : StringSet :=
  (mapGet sb.permMap key).getD []

theorem addAvc_of_not_bad (sb : SeProfileBuilder) (a : SelinuxAvc) (h : ¬ avcBad a) :
    addAvc sb a = .ok (addAvcOk sb a) := by
  have hctx : ctxt2type a.tcontext =
      .ok ⟨(splitOnChar ':' a.tcontext.data).getD 2 []⟩ := by
    unfold ctxt2type
    rw [if_neg (by unfold avcBad at h; omega)]
  simp only [addAvc, hctx, addAvcOk, avcKey]
  cases hm : mapGet sb.permMap
      (a.tclass ++ " " ++ (⟨(splitOnChar ':' a.tcontext.data).getD 2 []⟩ : String)) <;>
    rfl

theorem addAvc_of_bad (sb : SeProfileBuilder) (a : SelinuxAvc) (h : avcBad a) :
    addAvc sb a = .error (.wrap "converting context to type"
      (.new "Malformed SELinux context")) := by
  have hctx : ctxt2type a.tcontext = .error (.new "Malformed SELinux context") := by
    unfold ctxt2type
    rw [if_pos (show (splitOnChar ':' a.tcontext.data).length < 3 from h)]
  simp only [addAvc, hctx]

theorem AddAvcList_of_bad (sb : SeProfileBuilder) (l : List SelinuxAvc)
    (h : ∃ a ∈ l, avcBad a) :
    AddAvcList sb l = .error (.wrap "adding AVC" (.wrap "converting context to type"
      (.new "Malformed SELinux context"))) := by
  induction l generalizing sb with
  | nil => simp at h
  | cons a rest ih =>
    unfold AddAvcList
    by_cases ha : avcBad a
    · rw [addAvc_of_bad sb a ha]
    · rw [addAvc_of_not_bad sb a ha]
      apply ih
      obtain ⟨b, hb, hbad⟩ := h
      rcases List.mem_cons.mp hb with rfl | hbr
      · exact absurd hbad ha
      · exact ⟨b, hbr, hbad⟩

theorem AddAvcList_of_good (sb : SeProfileBuilder) (l : List SelinuxAvc)
    (h : ∀ a ∈ l, ¬ avcBad a) :
    AddAvcList sb l = .ok (foldAdd sb l) := by
  induction l generalizing sb with
  | nil => rfl
  | cons a rest ih =>
    unfold AddAvcList
    rw [addAvc_of_not_bad sb a (h a (by simp))]
    exact ih _ fun b hb => h b (List.mem_cons_of_mem a hb)

theorem mapGet_mapSet {β : Type} (m : List (String × β)) (k k' : String) (v : β) :
    mapGet (mapSet m k v) k' = if k = k' then some v else mapGet m k' := by
  induction m with
  | nil =>
    simp only [mapSet, mapGet]
  | cons p rest ih =>
    obtain ⟨pk, pv⟩ := p
    simp only [mapSet]
    by_cases hpk : pk = k
    · subst hpk
      rw [if_pos rfl]
      simp only [mapGet]
      by_cases hk' : pk = k'
      · subst hk'
        simp
      · rw [if_neg hk', if_neg hk', if_neg hk']
    · rw [if_neg hpk]
      simp only [mapGet]
      by_cases hpk' : pk = k'
      · subst hpk'
        rw [if_pos rfl, if_neg (fun hh => hpk hh.symm), if_pos rfl]
      · rw [if_neg hpk', if_neg hpk', ih]

theorem permsAt_addAvcOk (sb : SeProfileBuilder) (a : SelinuxAvc) (key : String) :
    permsAt (addAvcOk sb a) key =
      if avcKey a = key then (permsAt sb (avcKey a)).insertStr a.perm
      else permsAt sb key := by
  unfold permsAt addAvcOk
  simp only
  cases hm : mapGet sb.permMap (avcKey a) with
  | some perms =>
    rw [mapGet_mapSet]
    by_cases hk : avcKey a = key
    · rw [if_pos hk, if_pos hk]
      simp [hm]
    · rw [if_neg hk, if_neg hk]
  | none =>
    rw [mapGet_mapSet]
    by_cases hk : avcKey a = key
    · rw [if_pos hk, if_pos hk]
      simp only [hm, Option.getD_some, Option.getD_none]
      rfl
    · rw [if_neg hk, if_neg hk]

theorem mem_insertStr (s : StringSet) (x p : String) :
    p ∈ s.insertStr x ↔ p ∈ s ∨ p = x := by
  unfold StringSet.insertStr
  by_cases hx : x ∈ s
  · rw [if_pos hx]
    constructor
    · exact Or.inl
    · rintro (hp | rfl)
      · exact hp
      · exact hx
  · rw [if_neg hx]
    simp

theorem nodup_insertStr (s : StringSet) (x : String) (h : s.Nodup) :
    (s.insertStr x).Nodup := by
  unfold StringSet.insertStr
  by_cases hx : x ∈ s
  · rwa [if_pos hx]
  · rw [if_neg hx]
    apply List.Nodup.append h (List.nodup_singleton x)
    intro y hy hyx
    rw [List.mem_singleton] at hyx
    subst hyx
    exact hx hy

theorem mem_permsAt_foldAdd (l : List SelinuxAvc) (sb : SeProfileBuilder)
    (key p : String) :
    p ∈ permsAt (foldAdd sb l) key ↔
      p ∈ permsAt sb key ∨ ∃ a ∈ l, avcKey a = key ∧ a.perm = p := by
  induction l generalizing sb with
  | nil => simp [foldAdd]
  | cons a rest ih =>
    show p ∈ permsAt (foldAdd (addAvcOk sb a) rest) key ↔ _
    rw [ih]
    rw [permsAt_addAvcOk]
    by_cases hk : avcKey a = key
    · rw [if_pos hk]
      rw [mem_insertStr]
      subst hk
      simp only [List.mem_cons]
      constructor
      · rintro ((hp | rfl) | ⟨b, hb, hkb, hpb⟩)
        · exact Or.inl hp
        · exact Or.inr ⟨a, Or.inl rfl, rfl, rfl⟩
        · exact Or.inr ⟨b, Or.inr hb, hkb, hpb⟩
      · rintro (hp | ⟨b, hb | hb, hkb, hpb⟩)
        · exact Or.inl (Or.inl hp)
        · subst hb
          exact Or.inl (Or.inr hpb.symm)
        · exact Or.inr ⟨b, hb, hkb, hpb⟩
    · rw [if_neg hk]
      simp only [List.mem_cons]
      constructor
      · rintro (hp | ⟨b, hb, hkb, hpb⟩)
        · exact Or.inl hp
        · exact Or.inr ⟨b, Or.inr hb, hkb, hpb⟩
      · rintro (hp | ⟨b, hb | hb, hkb, hpb⟩)
        · exact Or.inl hp
        · subst hb
          exact absurd hkb hk
        · exact Or.inr ⟨b, hb, hkb, hpb⟩

theorem keys_foldAdd (l : List SelinuxAvc) (sb : SeProfileBuilder) :
    (foldAdd sb l).keys = sb.keys ++ l.map avcKey := by
  induction l generalizing sb with
  | nil => simp [foldAdd]
  | cons a rest ih =>
    show (foldAdd (addAvcOk sb a) rest).keys = _
    rw [ih]
    simp [addAvcOk]

theorem usageCtx_foldAdd (l : List SelinuxAvc) (sb : SeProfileBuilder) :
    (foldAdd sb l).usageCtx = sb.usageCtx := by
  induction l generalizing sb with
  | nil => rfl
  | cons a rest ih =>
    show (foldAdd (addAvcOk sb a) rest).usageCtx = _
    rw [ih]
    rfl

theorem nodup_permsAt_foldAdd (l : List SelinuxAvc) (sb : SeProfileBuilder)
    (h : ∀ key, (permsAt sb key).Nodup) (key : String) :
    (permsAt (foldAdd sb l) key).Nodup := by
  induction l generalizing sb with
  | nil => exact h key
  | cons a rest ih =>
    show (permsAt (foldAdd (addAvcOk sb a) rest) key).Nodup
    apply ih
    intro key'
    rw [permsAt_addAvcOk]
    by_cases hk : avcKey a = key'
    · rw [if_pos hk]
      exact nodup_insertStr _ _ (h _)
    · rw [if_neg hk]
      exact h key'

theorem sortStrings_eq_of_perm (l1 l2 : List String) (h : List.Perm l1 l2) :
    sortStrings l1 = sortStrings l2 :=
  List.eq_of_perm_of_sorted
    ((List.perm_insertionSort strLeRel l1).trans
      (h.trans (List.perm_insertionSort strLeRel l2).symm))
    (List.sorted_insertionSort strLeRel l1)
    (List.sorted_insertionSort strLeRel l2)

theorem sortStrings_nil_iff (l : List String) : sortStrings l = [] ↔ l = [] := by
  constructor
  · intro h
    have hp : List.Perm (sortStrings l) l := List.perm_insertionSort strLeRel l
    rw [h] at hp
    exact hp.symm.eq_nil
  · rintro rfl
    rfl

theorem policyLine_congr (tclass tcontext : String) (p1 p2 : StringSet)
    (h : sortStrings p1 = sortStrings p2) :
    policyLine tclass tcontext p1 = policyLine tclass tcontext p2 := by
  unfold policyLine
  by_cases h1 : p1 = []
  · have h2 : p2 = [] := by
      rw [← sortStrings_nil_iff, ← h, sortStrings_nil_iff]
      exact h1
    subst h1
    subst h2
    rfl
  · have h2 : p2 ≠ [] := by
      intro hnil
      apply h1
      rw [← sortStrings_nil_iff, h, sortStrings_nil_iff]
      exact hnil
    rw [if_neg (by simpa [List.isEmpty_iff] using h1),
        if_neg (by simpa [List.isEmpty_iff] using h2), h]

theorem formatKeys_congr (usageCtx : String) (m1 m2 : List (String × StringSet))
    (hp : ∀ key, sortStrings ((mapGet m1 key).getD []) =
      sortStrings ((mapGet m2 key).getD [])) (keys : List String) :
    formatKeys usageCtx m1 keys = formatKeys usageCtx m2 keys := by
  induction keys with
  | nil => rfl
  | cons key rest ih =>
    unfold formatKeys
    have hline : writeLineFromKeyVal usageCtx key ((mapGet m1 key).getD []) =
        writeLineFromKeyVal usageCtx key ((mapGet m2 key).getD []) := by
      unfold writeLineFromKeyVal
      rw [policyLine_congr _ _ _ _ (hp key)]
    rw [hline, ih]

theorem Format_congr (sb1 sb2 : SeProfileBuilder)
    (hu : sb1.usageCtx = sb2.usageCtx)
    (hk : sortStrings sb1.keys = sortStrings sb2.keys)
    (hp : ∀ key, sortStrings (permsAt sb1 key) = sortStrings (permsAt sb2 key)) :
    Format sb1 = Format sb2 := by
  unfold Format
  rw [hu, hk, formatKeys_congr sb2.usageCtx sb1.permMap sb2.permMap hp]

/-- C2: the Policy Builder output is a function of the usage context and
the multiset of AVCs: running `AddAvcList` then `Format` on a fresh builder
over any two permutations of the same AVC list gives byte-identical
results (in particular two runs over the same list trivially agree). -/
theorem claim_C2 (usageCtx : String) (avcs1 avcs2 : List SelinuxAvc)
    (h : List.Perm avcs1 avcs2) :
    formatSelinuxProfile usageCtx avcs1 = formatSelinuxProfile usageCtx avcs2 := by
  by_cases hbad : ∃ a ∈ avcs1, avcBad a
  · have hbad2 : ∃ a ∈ avcs2, avcBad a := by
      obtain ⟨a, ha, hb⟩ := hbad
      exact ⟨a, h.subset ha, hb⟩
    unfold formatSelinuxProfile
    rw [AddAvcList_of_bad _ _ hbad, AddAvcList_of_bad _ _ hbad2]
  · have hgood1 : ∀ a ∈ avcs1, ¬ avcBad a := by
      push_neg at hbad
      exact hbad
    have hgood2 : ∀ a ∈ avcs2, ¬ avcBad a := fun a ha => hgood1 a (h.symm.subset ha)
    unfold formatSelinuxProfile
    rw [AddAvcList_of_good _ _ hgood1, AddAvcList_of_good _ _ hgood2]
    have hF : Format (foldAdd (newSeProfileBuilder usageCtx) avcs1) =
        Format (foldAdd (newSeProfileBuilder usageCtx) avcs2) := by
      apply Format_congr
      · rw [usageCtx_foldAdd, usageCtx_foldAdd]
      · rw [keys_foldAdd, keys_foldAdd]
        exact sortStrings_eq_of_perm _ _ (h.map avcKey)
      · intro key
        apply sortStrings_eq_of_perm
        have hn1 : (permsAt (foldAdd (newSeProfileBuilder usageCtx) avcs1) key).Nodup :=
          nodup_permsAt_foldAdd avcs1 (newSeProfileBuilder usageCtx)
            (fun k => show List.Nodup (permsAt (newSeProfileBuilder usageCtx) k) from
              List.nodup_nil) key
        have hn2 : (permsAt (foldAdd (newSeProfileBuilder usageCtx) avcs2) key).Nodup :=
          nodup_permsAt_foldAdd avcs2 (newSeProfileBuilder usageCtx)
            (fun k => show List.Nodup (permsAt (newSeProfileBuilder usageCtx) k) from
              List.nodup_nil) key
        rw [List.perm_ext_iff_of_nodup hn1 hn2]
        intro p
        rw [mem_permsAt_foldAdd, mem_permsAt_foldAdd]
        have hbase : p ∉ permsAt (newSeProfileBuilder usageCtx) key :=
          List.not_mem_nil p
        constructor
        · rintro (hp | ⟨a, ha, hk, hp⟩)
          · exact absurd hp hbase
          · exact Or.inr ⟨a, h.subset ha, hk, hp⟩
        · rintro (hp | ⟨a, ha, hk, hp⟩)
          · exact absurd hp hbase
          · exact Or.inr ⟨a, h.symm.subset ha, hk, hp⟩
    show (match Format (foldAdd (newSeProfileBuilder usageCtx) avcs1) with
      | Except.error e => Except.error (Err.wrap "building policy" e)
      | Except.ok s => Except.ok s) =
      (match Format (foldAdd (newSeProfileBuilder usageCtx) avcs2) with
      | Except.error e => Except.error (Err.wrap "building policy" e)
      | Except.ok s => Except.ok s)
    rw [hF]

theorem claim_C2_witness :
    formatSelinuxProfile "my_usage_t" [c1AvcExecute, c1AvcRead, c1AvcWrite] =
      formatSelinuxProfile "my_usage_t" [c1AvcRead, c1AvcExecute, c1AvcWrite] :=
  claim_C2 "my_usage_t" _ _ (List.Perm.swap c1AvcRead c1AvcExecute [c1AvcWrite])

/-! ## The recorder: annotation parsing, reconcile and collect flows -/

/-- Model of `profilerecording1alpha1.ProfileRecordingKind`. -/
inductive RecordingKind where
  | seccomp
  | selinux
deriving DecidableEq, Repr

/-- Model of `profilerecording1alpha1.ProfileRecorder` (the recording mode). -/
inductive RecorderMode where
  | hook
  | logs
deriving DecidableEq, Repr

/-- Model of `profileToCollect` from profilerecorder.go. -/
structure profileToCollect where
  kind : RecordingKind
  name : String
deriving DecidableEq, Repr

/-- Model of `podToWatch` from profilerecorder.go. -/
structure podToWatch where
  recorder : RecorderMode
  profiles : List profileToCollect
deriving DecidableEq, Repr

/-- Modelled from the spec: `config.SeccompProfileRecordHookAnnotationKey`,
the hook annotation key prefix from the config package (not among the
provided sources); the spec only requires a distinguished prefix. -/
def SeccompProfileRecordHookAnnotationKey : String :=
  "io.containers.trace-syscall/"

/-- Modelled from the spec: `config.SeccompProfileRecordLogsAnnotationKey`
(seccomp log-recording annotation key prefix), not among the provided
sources. -/
def SeccompProfileRecordLogsAnnotationKey : String :=
  "io.containers.record-syscall-log/"

/-- Modelled from the spec: `config.SelinuxProfileRecordLogsAnnotationKey`
(SELinux log-recording annotation key prefix), not among the provided
sources. -/
def SelinuxProfileRecordLogsAnnotationKey : String :=
  "io.containers.record-selinux-log/"

/-- Modelled from the spec: `config.ProfileRecordingOutputPath`, the fixed
directory bounding which hook output files are picked up; not among the
provided sources. -/
def ProfileRecordingOutputPath : String :=
  "/var/run/security-profiles-operator/recordings"

/-- Go `strings.HasPrefix` on character lists (first argument the string,
second the prefix). -/
def hasPrefixList : List Char → List Char → Bool
  | _, [] => true
  | [], _ :: _ => false
  | a :: as, b :: bs => a = b && hasPrefixList as bs

def strHasPrefixB (s pre : String) : Bool := hasPrefixList s.data pre.data

/-- Go `strings.TrimSpace` (whitespace per `Char.isWhitespace`; the claims
depend on no finer point of Go's Unicode space class). -/
def trimSpace (s : String) : String :=
  ⟨((s.data.dropWhile Char.isWhitespace).reverse.dropWhile Char.isWhitespace).reverse⟩

/-- The suffix after the last occurrence of `sep`, if any. -/
def tailAfterLast (sep : Char) : List Char → Option (List Char)
  | [] => none
  | c :: rest =>
    match tailAfterLast sep rest with
    | some suf => some suf
    | none => if c = sep then some rest else none

/-- Go `filepath.Base` (Unix): `""` gives `"."`; trailing slashes are
stripped; the component after the last `/` is kept; all-slash paths give
`"/"`. -/
def filepathBase (p : String) : String :=
  if p.data.isEmpty then "."
  else
    match tailAfterLast '/' ((p.data.reverse.dropWhile (fun c => c = '/')).reverse) with
    | some suf => if suf.isEmpty then "/" else ⟨suf⟩
    | none =>
      if ((p.data.reverse.dropWhile (fun c => c = '/')).reverse).isEmpty then "/"
      else ⟨(p.data.reverse.dropWhile (fun c => c = '/')).reverse⟩

/-- Model of `parseHookAnnotations` from profilerecorder.go, over the annotation map
as a list of key-value pairs (Go map iteration, in list order).  A matching
key must carry a value of the form `of:<absolute path>`; paths outside
`ProfileRecordingOutputPath` are skipped; the collected entries always have
kind seccomp.  (The source's `outputFile == ""` check is unreachable, since
the empty string is not an absolute path; it is kept here verbatim.) -/
def parseHookAnnotations : List (String × String) → Except Err (List profileToCollect)
  | [] => .ok []
  | (key, value) :: rest =>
    if strHasPrefixB key SeccompProfileRecordHookAnnotationKey = false then
      parseHookAnnotations rest
    else if strHasPrefixB value "of:" = false then
      .error (.wrap ("must start with \"of:\" prefix") (.new "invalid Annotation"))
    else if strHasPrefixB (trimSpace ⟨value.data.drop 3⟩) "/" = false then
      .error (.wrap ("output file path must be absolute: \"" ++
        trimSpace ⟨value.data.drop 3⟩ ++ "\"") (.new "invalid Annotation"))
    else if trimSpace ⟨value.data.drop 3⟩ = "" then
      .error (.wrap "providing output file is mandatory" (.new "invalid Annotation"))
    else if strHasPrefixB (trimSpace ⟨value.data.drop 3⟩) ProfileRecordingOutputPath = false then
      parseHookAnnotations rest
    else
      match parseHookAnnotations rest with
      | .error e => .error e
      | .ok res =>
        .ok ({ kind := .seccomp, name := trimSpace ⟨value.data.drop 3⟩ } :: res)

/-- Model of `parseLogAnnotations` from profilerecorder.go: a key with the
seccomp-log (resp. selinux-log) prefix contributes a profile of that kind
named by the value, which must be non-empty. -/
def parseLogAnnotations : List (String × String) → Except Err (List profileToCollect)
  | [] => .ok []
  | (key, profile) :: rest =>
    if strHasPrefixB key SeccompProfileRecordLogsAnnotationKey then
      if profile = "" then
        .error (.wrap "providing output profile is mandatory" (.new "invalid Annotation"))
      else
        match parseLogAnnotations rest with
        | .error e => .error e
        | .ok res => .ok ({ kind := .seccomp, name := profile } :: res)
    else if strHasPrefixB key SelinuxProfileRecordLogsAnnotationKey then
      if profile = "" then
        .error (.wrap "providing output profile is mandatory" (.new "invalid Annotation"))
      else
        match parseLogAnnotations rest with
        | .error e => .error e
        | .ok res => .ok ({ kind := .selinux, name := profile } :: res)
    else
      parseLogAnnotations rest

/-- The `podsToWatch` map (`sync.Map` keyed by `types.NamespacedName.String()`). -/
abbrev WatchMap := List (String × podToWatch)

/-- The Pending-phase branch of `RecorderReconciler.Reconcile`
(profilerecorder.go lines 239-285): if the pod is already tracked, or an
annotation set fails to parse, the map is unchanged; otherwise hook mode is
stored when hook profiles exist, else log mode when log profiles exist,
else nothing. -/
def reconcilePending (watch : WatchMap) (podKey : String)
    (annots : List (String × String)) : WatchMap :=
  match mapGet watch podKey with
  | some _ => watch
  | none =>
    match parseHookAnnotations annots with
    | .error _ => watch
    | .ok hookProfiles =>
      match parseLogAnnotations annots with
      | .error _ => watch
      | .ok logProfiles =>
        if hookProfiles.length > 0 then
          mapSet watch podKey { recorder := .hook, profiles := hookProfiles }
        else if logProfiles.length > 0 then
          mapSet watch podKey { recorder := .logs, profiles := logProfiles }
        else watch

/-- The externally observable calls the collect flows make, in order. -/
inductive RecAction where
  | getSPOD
  | dialEnricher
  | readFile (path : String)
  | createOrUpdateSeccomp (namespc name : String)
  | createOrUpdateSelinux (namespc name : String)
  | rpcSyscalls (profileID : String)
  | rpcResetSyscalls (profileID : String)
  | rpcAvcs (profileID : String)
  | rpcResetAvcs (profileID : String)
  | eventNormal
  | eventWarning
deriving DecidableEq, Repr

/-- Outcomes of the external collaborators (cluster API, enricher RPC,
files); the recorder's control flow is a function of these. -/
structure ClusterEnv where
  spodEnableLogEnricher : Except Err Bool
  dialResult : Except Err Unit
  readFileResult : String → Except Err String
  createOrUpdateSeccompHook : String → String → String → Except Err Unit
  createOrUpdateSeccompLog : String → String → List String → Except Err Unit
  createOrUpdateSelinuxLog : String → String → String → Except Err Unit
  syscallsResult : String → Except Err (List String)
  resetSyscallsResult : String → Except Err Unit
  avcsResult : String → Except Err (List SelinuxAvc)
  resetAvcsResult : String → Except Err Unit
  policyUsage : String → String

/-- Model of `RecorderReconciler.collectLogSeccompProfile`: snapshot the syscalls,
create-or-update the SeccompProfile object, then reset the syscalls. -/
def collectLogSeccompProfile (env : ClusterEnv) (profileName namespc profileID : String) :
    List RecAction × Except Err Unit :=
  match env.syscallsResult profileID with
  | .error e =>
    ([.rpcSyscalls profileID],
     .error (.wrap ("retrieve syscalls for profile " ++ profileID) e))
  | .ok syscallList =>
    match env.createOrUpdateSeccompLog namespc profileName syscallList with
    | .error e =>
      ([.rpcSyscalls profileID, .createOrUpdateSeccomp namespc profileName, .eventWarning],
       .error (.wrap "create seccompProfile resource" e))
    | .ok _ =>
      match env.resetSyscallsResult profileID with
      | .error e =>
        ([.rpcSyscalls profileID, .createOrUpdateSeccomp namespc profileName,
          .eventNormal, .rpcResetSyscalls profileID],
         .error (.wrap ("reset syscalls for profile " ++ profileID) e))
      | .ok _ =>
        ([.rpcSyscalls profileID, .createOrUpdateSeccomp namespc profileName,
          .eventNormal, .rpcResetSyscalls profileID],
         .ok ())

/-- Model of `RecorderReconciler.collectLogSelinuxProfile`: snapshot the AVCs,
format the policy with the builder, create-or-update the SelinuxProfile
object, then reset the AVCs. -/
def collectLogSelinuxProfile (env : ClusterEnv) (profileName namespc profileID : String) :
    List RecAction × Except Err Unit :=
  match env.avcsResult profileID with
  | .error e =>
    ([.rpcAvcs profileID],
     .error (.wrap ("retrieve avcs for profile " ++ profileID) e))
  | .ok avcList =>
    match formatSelinuxProfile (env.policyUsage profileName) avcList with
    | .error e =>
      ([.rpcAvcs profileID, .eventWarning],
       .error (.wrap "format selinuxprofile resource" e))
    | .ok policy =>
      match env.createOrUpdateSelinuxLog namespc profileName policy with
      | .error e =>
        ([.rpcAvcs profileID, .createOrUpdateSelinux namespc profileName, .eventWarning],
         .error (.wrap "create selinuxprofile resource" e))
      | .ok _ =>
        match env.resetAvcsResult profileID with
        | .error e =>
          ([.rpcAvcs profileID, .createOrUpdateSelinux namespc profileName,
            .eventNormal, .rpcResetAvcs profileID],
           .error (.wrap ("reset selinuxprofile for profile " ++ profileName) e))
        | .ok _ =>
          ([.rpcAvcs profileID, .createOrUpdateSelinux namespc profileName,
            .eventNormal, .rpcResetAvcs profileID],
           .ok ())

/-- The per-profile loop of `collectLogProfiles`. -/
def collectLogProfilesLoop (env : ClusterEnv) (namespc : String) :
    List profileToCollect → List RecAction × Except Err Unit
  | [] => ([], .ok ())
  | prf :: rest =>
    match extractProfileName prf.name with
    | .error e => ([], .error (.wrap "extract profile name" e))
    | .ok profileName =>
      match prf.kind with
      | .seccomp =>
        match collectLogSeccompProfile env profileName namespc prf.name with
        | (tr, .error e) => (tr, .error e)
        | (tr, .ok _) =>
          (tr ++ (collectLogProfilesLoop env namespc rest).1,
           (collectLogProfilesLoop env namespc rest).2)
      | .selinux =>
        match collectLogSelinuxProfile env profileName namespc prf.name with
        | (tr, .error e) => (tr, .error e)
        | (tr, .ok _) =>
          (tr ++ (collectLogProfilesLoop env namespc rest).1,
           (collectLogProfilesLoop env namespc rest).2)

/-- Model of `RecorderReconciler.collectLogProfiles`: check the SPOD's enricher
flag, dial the enricher, then run the per-profile loop. -/
def collectLogProfiles (env : ClusterEnv) (namespc : String)
    (profiles : List profileToCollect) : List RecAction × Except Err Unit :=
  match env.spodEnableLogEnricher with
  | .error e => ([.getSPOD], .error (.wrap "getting SPOD config" e))
  | .ok enabled =>
    if enabled = false then
      ([.getSPOD], .error (.new "log enricher not enabled"))
    else
      match env.dialResult with
      | .error e =>
        ([.getSPOD, .dialEnricher], .error (.wrap "connecting to local GRPC server" e))
      | .ok _ =>
        ([.getSPOD, .dialEnricher] ++ (collectLogProfilesLoop env namespc profiles).1,
         (collectLogProfilesLoop env namespc profiles).2)

/-- Model of `RecorderReconciler.collectLocalProfiles` (hook mode): only seccomp
profiles are supported; each profile file is read, its name extracted from
the base name, and the SeccompProfile object created-or-updated. -/
def collectLocalProfiles (env : ClusterEnv) (namespc : String) :
    List profileToCollect → List RecAction × Except Err Unit
  | [] => ([], .ok ())
  | prf :: rest =>
    if prf.kind ≠ RecordingKind.seccomp then
      ([], .error (.new "only seccomp profiles supported via a hook"))
    else
      match env.readFileResult prf.name with
      | .error e => ([.readFile prf.name], .error (.wrap "read profile" e))
      | .ok data =>
        match extractProfileName (filepathBase prf.name) with
        | .error e => ([.readFile prf.name], .error (.wrap "extract profile name" e))
        | .ok profileName =>
          match env.createOrUpdateSeccompHook namespc profileName data with
          | .error e =>
            ([.readFile prf.name, .createOrUpdateSeccomp namespc profileName, .eventWarning],
             .error (.wrap "create seccompProfile resource" e))
          | .ok _ =>
            ([.readFile prf.name, .createOrUpdateSeccomp namespc profileName, .eventNormal] ++
               (collectLocalProfiles env namespc rest).1,
             (collectLocalProfiles env namespc rest).2)

/-- Model of `RecorderReconciler.collectProfile`: look the pod up in `podsToWatch`;
an untracked pod is a successful no-op.  On success of the mode-specific
collection the entry is deleted; on failure it is kept (the error returns
before the delete). -/
def collectProfile (env : ClusterEnv) (watch : WatchMap) (namespc podName : String) :
    (List RecAction × Except Err Unit) × WatchMap :=
  match mapGet watch (namespc ++ "/" ++ podName) with
  | none => (([], .ok ()), watch)
  | some ptw =>
    match ptw.recorder with
    | .hook =>
      match collectLocalProfiles env namespc ptw.profiles with
      | (tr, .error e) => ((tr, .error (.wrap "collect local profile" e)), watch)
      | (tr, .ok _) => ((tr, .ok ()), mapDel watch (namespc ++ "/" ++ podName))
    | .logs =>
      match collectLogProfiles env namespc ptw.profiles with
      | (tr, .error e) => ((tr, .error (.wrap "collect log profile" e)), watch)
      | (tr, .ok _) => ((tr, .ok ()), mapDel watch (namespc ++ "/" ++ podName))

/-! ## Claim C3: mode choice at Pending -/

/-- C3: for a pod first observed Pending (not yet tracked) with parseable
annotations, hook mode is stored iff hook annotations yielded at least one
profile; otherwise log mode is stored iff log annotations yielded at least
one profile; otherwise no `podsToWatch` entry is created.  A pod that is
already tracked is left untouched, so the mode is chosen exactly once. -/
theorem claim_C3 (watch : WatchMap) (podKey : String)
    (annots : List (String × String)) (hookProfiles logProfiles : List profileToCollect)
    (hnew : mapGet watch podKey = none)
    (hhook : parseHookAnnotations annots = .ok hookProfiles)
    (hlog : parseLogAnnotations annots = .ok logProfiles) :
    (hookProfiles ≠ [] →
      mapGet (reconcilePending watch podKey annots) podKey =
        some { recorder := .hook, profiles := hookProfiles }) ∧
    (hookProfiles = [] → logProfiles ≠ [] →
      mapGet (reconcilePending watch podKey annots) podKey =
        some { recorder := .logs, profiles := logProfiles }) ∧
    (hookProfiles = [] → logProfiles = [] →
      reconcilePending watch podKey annots = watch ∧
      mapGet (reconcilePending watch podKey annots) podKey = none) ∧
    (∀ (watch2 : WatchMap) (ptw : podToWatch) (annots2 : List (String × String)),
      mapGet watch2 podKey = some ptw →
      reconcilePending watch2 podKey annots2 = watch2) := by
  have hrp : reconcilePending watch podKey annots =
      (if hookProfiles.length > 0 then
        mapSet watch podKey { recorder := .hook, profiles := hookProfiles }
      else if logProfiles.length > 0 then
        mapSet watch podKey { recorder := .logs, profiles := logProfiles }
      else watch) := by
    simp only [reconcilePending, hnew, hhook, hlog]
  refine ⟨?_, ?_, ?_, ?_⟩
  · intro hne
    rw [hrp, if_pos (by simpa [List.length_pos] using hne), mapGet_mapSet, if_pos rfl]
  · intro hempty hne
    rw [hrp, if_neg (by simp [hempty]), if_pos (by simpa [List.length_pos] using hne),
      mapGet_mapSet, if_pos rfl]
  · intro h1 h2
    rw [hrp, if_neg (by simp [h1]), if_neg (by simp [h2])]
    exact ⟨rfl, hnew⟩
  · intro watch2 ptw annots2 htrack
    simp only [reconcilePending, htrack]

def c3Annots : List (String × String) :=
  [(SeccompProfileRecordHookAnnotationKey ++ "ctr",
    "of:" ++ ProfileRecordingOutputPath ++ "/prof-1600000000.json")]

theorem claim_C3_witness :
    mapGet (reconcilePending [] "default/mypod" c3Annots) "default/mypod" =
      some { recorder := RecorderMode.hook,
             profiles := [{ kind := RecordingKind.seccomp,
                            name := ProfileRecordingOutputPath ++ "/prof-1600000000.json" }] } :=
  (claim_C3 [] "default/mypod" c3Annots
    [{ kind := RecordingKind.seccomp,
       name := ProfileRecordingOutputPath ++ "/prof-1600000000.json" }] []
    rfl (by decide) (by decide)).1 (by decide)

/-! ## Claim C7: untracked pods at collection time -/

/-- C7: `collectProfile` for a pod with no `podsToWatch` entry is a no-op
returning success: no action (no file read, no cluster write, no RPC) is
performed and the map is unchanged. -/
theorem claim_C7 (env : ClusterEnv) (watch : WatchMap) (namespc podName : String)
    (h : mapGet watch (namespc ++ "/" ++ podName) = none) :
    collectProfile env watch namespc podName = (([], .ok ()), watch) := by
  simp only [collectProfile, h]

/-- Environment in which every external call succeeds, for the witnesses. -/
def envAllOk : ClusterEnv where
  spodEnableLogEnricher := .ok true
  dialResult := .ok ()
  readFileResult := fun _ => .ok "data"
  createOrUpdateSeccompHook := fun _ _ _ => .ok ()
  createOrUpdateSeccompLog := fun _ _ _ => .ok ()
  createOrUpdateSelinuxLog := fun _ _ _ => .ok ()
  syscallsResult := fun _ => .ok ["write"]
  resetSyscallsResult := fun _ => .ok ()
  avcsResult := fun _ => .ok []
  resetAvcsResult := fun _ => .ok ()
  policyUsage := fun name => name ++ ".process"

theorem claim_C7_witness :
    collectProfile envAllOk [] "default" "mypod" = (([], .ok ()), []) :=
  claim_C7 envAllOk [] "default" "mypod" rfl

/-! ## Claim C4: Reset only after a successful cluster write -/

/-- Holds when `y` occurs strictly after an occurrence of `x` in the trace. -/
def occursBeforeIn (x y : RecAction) (tr : List RecAction) : Prop :=
  ∃ l1 l2, tr = l1 ++ x :: l2 ∧ y ∈ l2

/-- C4: in log-mode materialization, the Reset RPC appears in the trace
only when the snapshot and the cluster create-or-update succeeded (for
SELinux, also the formatting), and the create-or-update call occurs before
the Reset; contrapositively, a snapshot, formatting, or cluster-write
failure means no Reset is issued. -/
theorem claim_C4 (env : ClusterEnv) (profileName namespc profileID : String) :
    (RecAction.rpcResetSyscalls profileID ∈
        (collectLogSeccompProfile env profileName namespc profileID).1 →
      (∃ syscallList, env.syscallsResult profileID = .ok syscallList ∧
        env.createOrUpdateSeccompLog namespc profileName syscallList = .ok ()) ∧
      occursBeforeIn (.createOrUpdateSeccomp namespc profileName)
        (.rpcResetSyscalls profileID)
        (collectLogSeccompProfile env profileName namespc profileID).1) ∧
    (RecAction.rpcResetAvcs profileID ∈
        (collectLogSelinuxProfile env profileName namespc profileID).1 →
      (∃ avcList policy, env.avcsResult profileID = .ok avcList ∧
        formatSelinuxProfile (env.policyUsage profileName) avcList = .ok policy ∧
        env.createOrUpdateSelinuxLog namespc profileName policy = .ok ()) ∧
      occursBeforeIn (.createOrUpdateSelinux namespc profileName)
        (.rpcResetAvcs profileID)
        (collectLogSelinuxProfile env profileName namespc profileID).1) := by
  constructor
  · intro hmem
    cases hs : env.syscallsResult profileID with
    | error e =>
      simp only [collectLogSeccompProfile, hs] at hmem
      simp at hmem
    | ok syscallList =>
      cases hc : env.createOrUpdateSeccompLog namespc profileName syscallList with
      | error e =>
        simp only [collectLogSeccompProfile, hs, hc] at hmem
        simp at hmem
      | ok _ =>
        refine ⟨⟨syscallList, rfl, hc⟩, ?_⟩
        cases hr : env.resetSyscallsResult profileID with
        | error e =>
          simp only [collectLogSeccompProfile, hs, hc, hr]
          exact ⟨[.rpcSyscalls profileID], [.eventNormal, .rpcResetSyscalls profileID],
            rfl, by simp⟩
        | ok _ =>
          simp only [collectLogSeccompProfile, hs, hc, hr]
          exact ⟨[.rpcSyscalls profileID], [.eventNormal, .rpcResetSyscalls profileID],
            rfl, by simp⟩
  · intro hmem
    cases hs : env.avcsResult profileID with
    | error e =>
      simp only [collectLogSelinuxProfile, hs] at hmem
      simp at hmem
    | ok avcList =>
      cases hf : formatSelinuxProfile (env.policyUsage profileName) avcList with
      | error e =>
        simp only [collectLogSelinuxProfile, hs, hf] at hmem
        simp at hmem
      | ok policy =>
        cases hc : env.createOrUpdateSelinuxLog namespc profileName policy with
        | error e =>
          simp only [collectLogSelinuxProfile, hs, hf, hc] at hmem
          simp at hmem
        | ok _ =>
          refine ⟨⟨avcList, policy, rfl, hf, hc⟩, ?_⟩
          cases hr : env.resetAvcsResult profileID with
          | error e =>
            simp only [collectLogSelinuxProfile, hs, hf, hc, hr]
            exact ⟨[.rpcAvcs profileID], [.eventNormal, .rpcResetAvcs profileID],
              rfl, by simp⟩
          | ok _ =>
            simp only [collectLogSelinuxProfile, hs, hf, hc, hr]
            exact ⟨[.rpcAvcs profileID], [.eventNormal, .rpcResetAvcs profileID],
              rfl, by simp⟩

theorem claim_C4_witness :
    (∃ syscallList, envAllOk.syscallsResult "pid1" = .ok syscallList ∧
      envAllOk.createOrUpdateSeccompLog "ns1" "prof1" syscallList = .ok ()) ∧
    occursBeforeIn (.createOrUpdateSeccomp "ns1" "prof1") (.rpcResetSyscalls "pid1")
      (collectLogSeccompProfile envAllOk "prof1" "ns1" "pid1").1 :=
  (claim_C4 envAllOk "prof1" "ns1" "pid1").1 (by decide)

/-! ## Claim C10: hook profiles are always seccomp -/

theorem parseHookAnnotations_kinds (annots : List (String × String))
    (res : List profileToCollect) (h : parseHookAnnotations annots = .ok res) :
    ∀ p ∈ res, p.kind = RecordingKind.seccomp := by
  induction annots generalizing res with
  | nil =>
    injection h with h
    subst h
    simp
  | cons kv rest ih =>
    obtain ⟨key, value⟩ := kv
    simp only [parseHookAnnotations] at h
    split at h
    · exact ih res h
    · split at h
      · cases h
      · split at h
        · cases h
        · split at h
          · cases h
          · split at h
            · exact ih res h
            · cases hr : parseHookAnnotations rest with
              | error e =>
                rw [hr] at h
                cases h
              | ok res' =>
                rw [hr] at h
                injection h with h
                subst h
                intro p hp
                rcases List.mem_cons.mp hp with rfl | hp'
                · rfl
                · exact ih res' hr p hp'

theorem collectLocalProfiles_no_kind_error (env : ClusterEnv) (namespc : String)
    (profiles : List profileToCollect)
    (h : ∀ p ∈ profiles, p.kind = RecordingKind.seccomp) :
    (collectLocalProfiles env namespc profiles).2 ≠
      .error (.new "only seccomp profiles supported via a hook") := by
  induction profiles with
  | nil => simp [collectLocalProfiles]
  | cons prf rest ih =>
    have hk : prf.kind = RecordingKind.seccomp := h prf (by simp)
    simp only [collectLocalProfiles, hk]
    rw [if_neg (by simp)]
    split
    · simp
    · split
      · simp
      · split
        · simp
        · exact ih fun p hp => h p (List.mem_cons_of_mem _ hp)

/-- C10: every profile `parseHookAnnotations` returns has kind
SeccompProfile, so for a pod whose hook-mode profiles came from
`parseHookAnnotations` the "only seccomp profiles supported via a hook"
error branch of `collectLocalProfiles` is unreachable. -/
theorem claim_C10 (annots : List (String × String)) (res : List profileToCollect)
    (h : parseHookAnnotations annots = .ok res) (env : ClusterEnv) (namespc : String) :
    (∀ p ∈ res, p.kind = RecordingKind.seccomp) ∧
    (collectLocalProfiles env namespc res).2 ≠
      .error (.new "only seccomp profiles supported via a hook") :=
  ⟨parseHookAnnotations_kinds annots res h,
   collectLocalProfiles_no_kind_error env namespc res
     (parseHookAnnotations_kinds annots res h)⟩

def c10Annots : List (String × String) :=
  [(SeccompProfileRecordHookAnnotationKey ++ "web",
    "of:" ++ ProfileRecordingOutputPath ++ "/web-1600000001.json"),
   ("unrelated.annotation-key", "whatever")]

theorem claim_C10_witness :
    (∀ p ∈ ([{ kind := RecordingKind.seccomp,
               name := ProfileRecordingOutputPath ++ "/web-1600000001.json" }] :
          List profileToCollect),
        p.kind = RecordingKind.seccomp) ∧
    (collectLocalProfiles envAllOk "default"
        ([{ kind := RecordingKind.seccomp,
            name := ProfileRecordingOutputPath ++ "/web-1600000001.json" }] :
          List profileToCollect)).2 ≠
      .error (.new "only seccomp profiles supported via a hook") :=
  claim_C10 c10Annots
    [{ kind := RecordingKind.seccomp,
       name := ProfileRecordingOutputPath ++ "/web-1600000001.json" }]
    (by decide) envAllOk "default"

end ProfileRecorder
